import Mathlib

/-!
Verification of `proxy-scraper-checker` (Rust) against its natural-language
specification.  The relevant parts of the source are shallowly embedded:
pure string processing becomes Lean functions on `List Char`, the stateful
pieces (retry loop, IP-database cache, checker pipeline) become explicit
state passing, and machine integers become `Nat` (all the integers involved
are non-negative and no arithmetic overflows: ports are `u16` values kept
below 2^16 by the regexes, durations are Rust `Duration`, i.e. unsigned).
-/

/-! ## Characters

`\s` and the character classes of the regexes in `src/parsers.rs`. -/

/-- ASCII whitespace as matched by `\s` (the inputs of interest are ASCII). -/
def isWsChar (c : Char) : Bool :=
  c == ' ' || c == '\t' || c == '\n' || c == '\r' || c == '\x0b' || c == '\x0c'

/-- `[0-9]`. -/
def isDigitChar (c : Char) : Bool :=
  '0' ≤ c && c ≤ '9'

/-- Numeric value of a digit string (most significant digit first). -/
def digitsVal (l : List Char) : Nat :=
  l.foldl (fun a c => 10 * a + (c.toNat - 48)) 0

/-- The octet alternation of `IPV4_REGEX` / `PROXY_REGEX`:
`[0-9]|[1-9][0-9]|1[0-9]{2}|2[0-4][0-9]|25[0-5]`, i.e. digit strings of
length 1–3 with no leading zero (except `"0"` itself) and value ≤ 255. -/
def validOctet (l : List Char) : Bool :=
  l.all isDigitChar && decide (l ≠ []) && decide (l.length ≤ 3)
    && (decide (l.length = 1) || decide (l.head? ≠ some '0'))
    && decide (digitsVal l ≤ 255)

/-- The port alternation of the regexes:
`[0-9]|[1-9][0-9]{1,3}|[1-5][0-9]{4}|6[0-4][0-9]{3}|65[0-4][0-9]{2}|655[0-2][0-9]|6553[0-5]`,
i.e. digit strings of length 1–5 with no leading zero (except `"0"`) and
value ≤ 65535. -/
def validPort (l : List Char) : Bool :=
  l.all isDigitChar && decide (l ≠ []) && decide (l.length ≤ 5)
    && (decide (l.length = 1) || decide (l.head? ≠ some '0'))
    && decide (digitsVal l ≤ 65535)

/-! ## `parse_ipv4` (src/parsers.rs)

`IPV4_REGEX` is
`^\s*(?P<host>octet(\.octet){3})(?::port)?\s*$`.
Both anchors are present, so a match consumes the whole string.  Because an
octet is followed in the pattern by `\.`, `:`, `\s` or the end of input —
never by a digit — every octet (and the port) coincides with a maximal run
of digits, so the backtracking regex engine is equivalent to the
maximal-munch reader below. -/

/-- Read one octet as a maximal digit run. -/
def readOctet (l : List Char) : Option (List Char × List Char) :=
  let ds := l.takeWhile isDigitChar
  if validOctet ds then some (ds, l.dropWhile isDigitChar) else none

/-- Expect a literal dot. -/
def expectDot : List Char → Option (List Char)
  | '.' :: r => some r
  | _ => none

/-- Read the `host` capture group: four octets separated by dots. -/
def readHost (l : List Char) : Option (List Char × List Char) := do
  let (o1, r1) ← readOctet l
  let r1 ← expectDot r1
  let (o2, r2) ← readOctet r1
  let r2 ← expectDot r2
  let (o3, r3) ← readOctet r2
  let r3 ← expectDot r3
  let (o4, r4) ← readOctet r3
  pure (o1 ++ '.' :: o2 ++ '.' :: o3 ++ '.' :: o4, r4)

/-- The tail `(?::port)?\\s*$` of `IPV4_REGEX`, applied to what remains
after the `host` capture. -/
def parseIpv4Tail (host rest : List Char) : Option (List Char) :=
  match rest with
  | ':' :: r2 =>
    if validPort (r2.takeWhile isDigitChar)
        && (r2.dropWhile isDigitChar).all isWsChar then
      some host
    else none
  | r => if r.all isWsChar then some host else none

/-- The whole of `IPV4_REGEX` on a list of characters, returning the `host`
capture group. -/
def parseIpv4List (l : List Char) : Option (List Char) :=
  match readHost (l.dropWhile isWsChar) with
  | none => none
  | some (host, rest) => parseIpv4Tail host rest

/-- `parse_ipv4` from src/parsers.rs: the `host` capture of `IPV4_REGEX`,
or `None` when the regex does not match. -/
def parse_ipv4 (s : String) : Option String :=
  (parseIpv4List s.toList).map fun l => ⟨l⟩

/-! ## HttpBin body parsing (src/proxy.rs 175–182)

`Proxy::check` decodes the response body, tries to deserialize it with
`serde_json` into `HttpbinResponse { origin: String }`, and applies
`parse_ipv4` to the `origin` field on success, to the raw body otherwise.
`serde_json` is an external library; `parseHttpbinOrigin` models its
behaviour on the bodies considered here: a single-member JSON object
`{"origin": "<string>"}` with the common string escapes.  (The real
deserializer additionally ignores unknown members; none of the inputs in
this development have any.) -/

/-- Read a JSON string body after the opening quote; handles the simple
escapes.  Returns the decoded characters and the remaining input. -/
def readJsonString : List Char → Option (List Char × List Char)
  | [] => none
  | '"' :: r => some ([], r)
  | '\\' :: e :: r =>
    match e with
    | '"' => (readJsonString r).map fun (s, r') => ('"' :: s, r')
    | '\\' => (readJsonString r).map fun (s, r') => ('\\' :: s, r')
    | '/' => (readJsonString r).map fun (s, r') => ('/' :: s, r')
    | 'n' => (readJsonString r).map fun (s, r') => ('\n' :: s, r')
    | 't' => (readJsonString r).map fun (s, r') => ('\t' :: s, r')
    | 'r' => (readJsonString r).map fun (s, r') => ('\r' :: s, r')
    | _ => none
  | c :: r => (readJsonString r).map fun (s, r') => (c :: s, r')

/-- Expect a fixed token, then return the rest. -/
def expectToken : List Char → List Char → Option (List Char)
  | [], r => some r
  | t :: ts, c :: r => if t == c then expectToken ts r else none
  | _ :: _, [] => none

/-- JSON whitespace. -/
def isJsonWs (c : Char) : Bool :=
  c == ' ' || c == '\t' || c == '\n' || c == '\r'

/-- Model of `serde_json::from_str::<HttpbinResponse>` restricted to
single-member objects: `{ "origin" : "<string>" }`. -/
def parseHttpbinOrigin (s : String) : Option String := do
  let l := s.toList.dropWhile isJsonWs
  let l ← expectToken ['{'] l
  let l := l.dropWhile isJsonWs
  let l ← expectToken ['"', 'o', 'r', 'i', 'g', 'i', 'n', '"'] l
  let l := l.dropWhile isJsonWs
  let l ← expectToken [':'] l
  let l := l.dropWhile isJsonWs
  let l ← expectToken ['"'] l
  let (v, l) ← readJsonString l
  let l := l.dropWhile isJsonWs
  let l ← expectToken ['}'] l
  if (l.dropWhile isJsonWs).isEmpty then pure (⟨v⟩ : String) else none

/-- The exit-IP computation of `Proxy::check` (src/proxy.rs 175–182) on a
successfully decoded body: `parse_ipv4` on the JSON `origin` field when the
body deserializes as a HttpBin-like object, on the plain text otherwise. -/
def checkExitIp (body : String) : Option String :=
  match parseHttpbinOrigin body with
  | some origin => parse_ipv4 origin
  | none => parse_ipv4 body

example : parse_ipv4 "9.9.9.9" = some "9.9.9.9" := by decide
example : parse_ipv4 "  1.2.3.4:8080  " = some "1.2.3.4" := by decide
example : parse_ipv4 "9.9.9.9, 2001:db8::1" = none := by decide
example : parseHttpbinOrigin "\x7b\"origin\":\"9.9.9.9, 2001:db8::1\"\x7d"
    = some "9.9.9.9, 2001:db8::1" := by decide
example : checkExitIp "\x7b\"origin\":\"9.9.9.9, 2001:db8::1\"\x7d" = none := by decide

/-! ## Facts about the character classes and maximal-munch reading -/

lemma validOctet_shape {l : List Char} (h : validOctet l = true) :
    l.all isDigitChar = true ∧ l ≠ [] := by
  simp only [validOctet, Bool.and_eq_true, Bool.or_eq_true, decide_eq_true_eq] at h
  exact ⟨h.1.1.1.1, h.1.1.1.2⟩

lemma validPort_digits {l : List Char} (h : validPort l = true) :
    l.all isDigitChar = true := by
  simp only [validPort, Bool.and_eq_true, Bool.or_eq_true, decide_eq_true_eq] at h
  exact h.1.1.1.1

lemma ws_not_digit {c : Char} (h : isWsChar c = true) : isDigitChar c = false := by
  simp only [isWsChar, Bool.or_eq_true, beq_iff_eq] at h
  rcases h with ((((rfl | rfl) | rfl) | rfl) | rfl) | rfl <;> decide

lemma digit_not_ws {c : Char} (h : isDigitChar c = true) : isWsChar c = false := by
  rcases hw : isWsChar c with _ | _
  · rfl
  · rw [ws_not_digit hw] at h
    exact absurd h (by decide)

/-- Splitting `takeWhile`/`dropWhile` at the boundary of a run: if every
element of `l` satisfies `p` and the head of `r` (when any) does not, the
scan stops exactly at the end of `l`. -/
lemma takeWhile_all_append {p : Char → Bool} {l r : List Char}
    (hl : l.all p = true) (hr : ∀ c ∈ r.head?, p c = false) :
    (l ++ r).takeWhile p = l ∧ (l ++ r).dropWhile p = r := by
  induction l with
  | nil =>
    cases r with
    | nil => exact ⟨rfl, rfl⟩
    | cons c t =>
      have hc := hr c (by simp)
      simp [List.takeWhile_cons, List.dropWhile_cons, hc]
  | cons a l ih =>
    rw [List.all_cons, Bool.and_eq_true] at hl
    have := ih hl.2
    simp [List.takeWhile_cons, List.dropWhile_cons, hl.1, this.1, this.2]

lemma readOctet_append {ds r : List Char} (h : validOctet ds = true)
    (hr : ∀ c ∈ r.head?, isDigitChar c = false) :
    readOctet (ds ++ r) = some (ds, r) := by
  obtain ⟨hall, -⟩ := validOctet_shape h
  have hs := takeWhile_all_append hall hr
  simp [readOctet, hs.1, hs.2, h]

lemma dot_head_not_digit (r : List Char) : ∀ c ∈ (('.' : Char) :: r).head?, isDigitChar c = false := by
  intro c hc
  simp only [List.head?_cons, Option.mem_def, Option.some.injEq] at hc
  subst hc
  decide

lemma all_ws_head_not_digit {r : List Char} (h : r.all isWsChar = true) :
    ∀ c ∈ r.head?, isDigitChar c = false := by
  intro c hc
  cases r with
  | nil => simp at hc
  | cons a t =>
    simp only [List.head?_cons, Option.mem_def, Option.some.injEq] at hc
    subst hc
    rw [List.all_cons, Bool.and_eq_true] at h
    exact ws_not_digit h.1

/-- Behaviour of the tail of `IPV4_REGEX` (`(?::port)?\s*$`) on an
all-whitespace remainder. -/
lemma parseIpv4Tail_ws {host rest : List Char} (h : rest.all isWsChar = true) :
    parseIpv4Tail host rest = some host := by
  cases rest with
  | nil => simp [parseIpv4Tail]
  | cons c t =>
    rw [List.all_cons, Bool.and_eq_true] at h
    have hc := h.1
    simp only [isWsChar, Bool.or_eq_true, beq_iff_eq] at hc
    rcases hc with ((((rfl | rfl) | rfl) | rfl) | rfl) | rfl <;>
      simp [parseIpv4Tail, List.all_cons, h.1, h.2, isWsChar]

lemma parseIpv4List_eq_of {l host rest : List Char}
    (h : readHost (l.dropWhile isWsChar) = some (host, rest)) :
    parseIpv4List l = parseIpv4Tail host rest := by
  unfold parseIpv4List
  rw [h]

lemma parseIpv4Tail_port {host pd w2 : List Char}
    (hpd : validPort pd = true) (hw2 : w2.all isWsChar = true) :
    parseIpv4Tail host (':' :: (pd ++ w2)) = some host := by
  have hs := takeWhile_all_append (validPort_digits hpd) (all_ws_head_not_digit hw2)
  simp [parseIpv4Tail, hs.1, hs.2, hpd, hw2]

/-- C1 (amended).  The exit-IP parser `parse_ipv4` accepts optional leading
whitespace, a plain IPv4 dotted quad, an optional `:port` suffix and
optional trailing whitespace — nothing else before or after (the regex is
anchored on both sides, so no prefix such as an IPv6 address is allowed) —
and returns the IPv4 substring.  Consequently, for the reference body
`{"origin":"9.9.9.9, 2001:db8::1"}` the checker leaves `exit_ip` absent. -/
theorem C1_exit_ip_spec (w1 o1 o2 o3 o4 pt w2 : List Char)
    (hw1 : w1.all isWsChar = true) (hw2 : w2.all isWsChar = true)
    (h1 : validOctet o1 = true) (h2 : validOctet o2 = true)
    (h3 : validOctet o3 = true) (h4 : validOctet o4 = true)
    (hpt : pt = [] ∨ ∃ pd, pt = ':' :: pd ∧ validPort pd = true) :
    parse_ipv4 ⟨w1 ++ (o1 ++ '.' :: (o2 ++ '.' :: (o3 ++ '.' :: (o4 ++ (pt ++ w2)))))⟩
        = some ⟨o1 ++ '.' :: (o2 ++ '.' :: (o3 ++ '.' :: o4))⟩
      ∧ checkExitIp "\x7b\"origin\":\"9.9.9.9, 2001:db8::1\"\x7d" = none := by
  refine ⟨?_, by decide⟩
  obtain ⟨hd1, hne1⟩ := validOctet_shape h1
  have htail : ∀ c ∈ (pt ++ w2).head?, isDigitChar c = false := by
    rcases hpt with rfl | ⟨pd, rfl, hpd⟩
    · simpa using all_ws_head_not_digit hw2
    · intro c hc
      simp only [List.cons_append, List.head?_cons, Option.mem_def,
        Option.some.injEq] at hc
      subst hc
      decide
  have e4 : readOctet (o4 ++ (pt ++ w2)) = some (o4, pt ++ w2) :=
    readOctet_append h4 htail
  have e3 : readOctet (o3 ++ '.' :: (o4 ++ (pt ++ w2)))
      = some (o3, '.' :: (o4 ++ (pt ++ w2))) :=
    readOctet_append h3 (dot_head_not_digit _)
  have e2 : readOctet (o2 ++ '.' :: (o3 ++ '.' :: (o4 ++ (pt ++ w2))))
      = some (o2, '.' :: (o3 ++ '.' :: (o4 ++ (pt ++ w2)))) :=
    readOctet_append h2 (dot_head_not_digit _)
  have e1 : readOctet (o1 ++ '.' :: (o2 ++ '.' :: (o3 ++ '.' :: (o4 ++ (pt ++ w2)))))
      = some (o1, '.' :: (o2 ++ '.' :: (o3 ++ '.' :: (o4 ++ (pt ++ w2))))) :=
    readOctet_append h1 (dot_head_not_digit _)
  have ehost : readHost (o1 ++ '.' :: (o2 ++ '.' :: (o3 ++ '.' :: (o4 ++ (pt ++ w2)))))
      = some (o1 ++ '.' :: (o2 ++ '.' :: (o3 ++ '.' :: o4)), pt ++ w2) := by
    simp [readHost, e1, e2, e3, e4, expectDot, List.append_assoc]
  have hX : ∀ c ∈ (o1 ++ '.' :: (o2 ++ '.' :: (o3 ++ '.' :: (o4 ++ (pt ++ w2))))).head?,
      isWsChar c = false := by
    intro c hc
    obtain ⟨a, t, rfl⟩ : ∃ a t, o1 = a :: t := by
      cases o1 with
      | nil => exact absurd rfl hne1
      | cons a t => exact ⟨a, t, rfl⟩
    simp only [List.cons_append, List.head?_cons, Option.mem_def,
      Option.some.injEq] at hc
    subst hc
    rw [List.all_cons, Bool.and_eq_true] at hd1
    exact digit_not_ws hd1.1
  have hdrop := (takeWhile_all_append hw1 hX).2
  show (parseIpv4List (w1 ++ (o1 ++ '.' :: (o2 ++ '.' :: (o3 ++ '.' :: (o4 ++ (pt ++ w2))))))).map
      (fun l => (⟨l⟩ : String)) = _
  rw [parseIpv4List_eq_of (by rw [hdrop]; exact ehost)]
  rcases hpt with rfl | ⟨pd, rfl, hpd⟩
  · rw [List.nil_append, parseIpv4Tail_ws hw2]
    rfl
  · rw [List.cons_append, parseIpv4Tail_port hpd hw2]
    rfl

/-- Witness for `C1_exit_ip_spec`: the body `"  9.9.9.9:80 "` (whitespace,
dotted quad, port, whitespace) parses to `"9.9.9.9"`. -/
theorem C1_exit_ip_spec_witness :
    parse_ipv4 ⟨[' ', ' '] ++ (['9'] ++ '.' :: (['9'] ++ '.' :: (['9'] ++ '.' :: (['9'] ++ ((':' :: ['8', '0']) ++ [' '])))))⟩
        = some ⟨['9'] ++ '.' :: (['9'] ++ '.' :: (['9'] ++ '.' :: ['9']))⟩
      ∧ checkExitIp "\x7b\"origin\":\"9.9.9.9, 2001:db8::1\"\x7d" = none :=
  C1_exit_ip_spec [' ', ' '] ['9'] ['9'] ['9'] ['9'] (':' :: ['8', '0']) [' ']
    (by decide) (by decide) (by decide) (by decide) (by decide) (by decide)
    (Or.inr ⟨['8', '0'], rfl, by decide⟩)

/-- C1 (counterexample).  The claim says the parser accepts an optional
prefix before the IPv4 and that the body `{"origin":"9.9.9.9, 2001:db8::1"}`
yields `exit_ip = "9.9.9.9"`.  In the source, `IPV4_REGEX` is anchored
(`^\s* … \s*$`), so the `origin` value `"9.9.9.9, 2001:db8::1"` — whose
IPv4 is followed by a comma and an IPv6 address — does not match, and
`Proxy::check` leaves `exit_ip` absent. -/
theorem C1_counterexample :
    parseHttpbinOrigin "\x7b\"origin\":\"9.9.9.9, 2001:db8::1\"\x7d"
        = some "9.9.9.9, 2001:db8::1"
      ∧ parse_ipv4 "9.9.9.9, 2001:db8::1" = none
      ∧ checkExitIp "\x7b\"origin\":\"9.9.9.9, 2001:db8::1\"\x7d" ≠ some "9.9.9.9"
      ∧ parse_ipv4 "2001:db8::1, 9.9.9.9" = none := by
  refine ⟨by decide, by decide, by decide, by decide⟩

/-! ## Data model (src/proxy.rs)

`ProxyType` and `Proxy`.  `compact_str::CompactString` is a string type;
`Duration` is modelled as nanoseconds (`Nat` — Rust durations are
unsigned); `u16` ports are `Nat` values that the parsers keep below
2^16. -/

/-- `ProxyType` (src/proxy.rs 19–23), in declaration order. -/
inductive ProxyType where
  | Http
  | Socks4
  | Socks5
deriving DecidableEq

/-- `Proxy` (src/proxy.rs 61–69). -/
structure Proxy where
  protocol : ProxyType
  host : String
  port : Nat
  username : Option String
  password : Option String
  timeout : Option Nat
  exit_ip : Option String
deriving DecidableEq

/-- `impl PartialEq for Proxy` (src/proxy.rs 222–230): equality on the
identity fields only; `timeout` and `exit_ip` are excluded. -/
def proxyIdEq (a b : Proxy) : Bool :=
  decide (a.protocol = b.protocol) && decide (a.host = b.host)
    && decide (a.port = b.port) && decide (a.username = b.username)
    && decide (a.password = b.password)

/-- `HashSet<Proxy>::insert`, under the `PartialEq`/`Hash` impls of
src/proxy.rs: if an identity-equal element is already present the set is
left unchanged (the old element, with its measurement fields, is
retained); otherwise the new element is added.  The set is modelled as
the list of its elements in insertion order. -/
def insertProxy (s : List Proxy) (p : Proxy) : List Proxy :=
  if s.any fun q => proxyIdEq q p then s else s ++ [p]

/-- `ProxyStorage` (src/storage.rs 5–8). -/
structure ProxyStorage where
  proxies : List Proxy
  enabled_protocols : List ProxyType
deriving DecidableEq

/-- `ProxyStorage::insert` (src/storage.rs 15–19): drop proxies of
disabled protocols, defer to the set insert otherwise. -/
def ProxyStorage.insert (s : ProxyStorage) (p : Proxy) : ProxyStorage :=
  if p.protocol ∈ s.enabled_protocols then
    { s with proxies := insertProxy s.proxies p }
  else s

/-- C10: inserting a `Proxy` whose identity `(protocol, host, port,
username, password)` equals that of an element already in the dedup
storage leaves the storage unchanged — in particular the existing
element's `timeout` and `exit_ip` survive and the new element's
measurement values are discarded (first insertion wins). -/
theorem C10_dedup_insert_frame (s : ProxyStorage) (p : Proxy)
    (h : ∃ q ∈ s.proxies, proxyIdEq q p = true) :
    s.insert p = s := by
  have hany : (s.proxies.any fun q => proxyIdEq q p) = true := by
    obtain ⟨q, hq, hid⟩ := h
    exact List.any_eq_true.mpr ⟨q, hq, hid⟩
  unfold ProxyStorage.insert insertProxy
  rw [hany]
  split <;> rfl

/-- Witness for `C10_dedup_insert_frame`: re-inserting a checked proxy's
identity with fresh (different) measurement fields leaves the stored
element — including its measurements — intact. -/
theorem C10_dedup_insert_frame_witness :
    (ProxyStorage.insert
        ⟨[⟨.Http, "1.2.3.4", 8080, none, none, some 120, some "9.9.9.9"⟩], [.Http]⟩
        ⟨.Http, "1.2.3.4", 8080, none, none, none, none⟩)
      = ⟨[⟨.Http, "1.2.3.4", 8080, none, none, some 120, some "9.9.9.9"⟩], [.Http]⟩ :=
  C10_dedup_insert_frame _ _
    ⟨⟨.Http, "1.2.3.4", 8080, none, none, some 120, some "9.9.9.9"⟩,
      by decide, by decide⟩

/-! ## Scraper (src/scraper.rs, `PROXY_REGEX` from src/parsers.rs)

A match of `PROXY_REGEX` is represented by its named capture groups.  The
predicates below transcribe the languages of the individual groups of

`(?:^|[^0-9A-Za-z])(?:(?P<protocol>https?|socks[45]):\/\/)?`
`(?:(?P<username>[0-9A-Za-z]{1,64}):(?P<password>[0-9A-Za-z]{1,64})@)?`
`(?P<host>domain|ipv4):(?P<port>port)(?=[^0-9A-Za-z]|$)`.

The claims about the scraper quantify over all matches, so the embedding
works with an arbitrary list of captures each of which lies in these
languages; the leftmost-first enumeration order of `captures_iter` is
irrelevant to them. -/

/-- `[A-Za-z]`. -/
def isAlphaChar (c : Char) : Bool :=
  ('A' ≤ c && c ≤ 'Z') || ('a' ≤ c && c ≤ 'z')

/-- `[\-\.A-Za-z]`. -/
def isHostMidChar (c : Char) : Bool :=
  isAlphaChar c || c == '-' || c == '.'

/-- Tail of the first `host` alternative: `[\-\.A-Za-z]{0,251}[A-Za-z]`. -/
def validDomainTail : List Char → Bool
  | [] => false
  | [c] => isAlphaChar c
  | c :: rest => isHostMidChar c && validDomainTail rest

/-- The domain alternatives of the `host` group:
`[A-Za-z][\-\.A-Za-z]{0,251}[A-Za-z]|[A-Za-z]`. -/
def validDomain : List Char → Bool
  | [] => false
  | [c] => isAlphaChar c
  | c :: rest => isAlphaChar c && decide (rest.length ≤ 252) && validDomainTail rest

/-- The IPv4 alternative of the `host` group: four octets. -/
def validIpv4Host (l : List Char) : Bool :=
  match l.splitOn '.' with
  | [a, b, c, d] => validOctet a && validOctet b && validOctet c && validOctet d
  | _ => false

/-- `[0-9A-Za-z]{1,64}` (username / password groups). -/
def validUserinfo (l : List Char) : Bool :=
  l.all (fun c => isDigitChar c || isAlphaChar c)
    && decide (1 ≤ l.length) && decide (l.length ≤ 64)

/-- One match of `PROXY_REGEX`, as its capture groups.  `host` and `port`
always participate in a match; the other groups are optional. -/
structure RegexCapture where
  protocol : Option String
  username : Option String
  password : Option String
  host : String
  port : String
deriving DecidableEq

/-- The protocol group language `https?|socks[45]` (when present). -/
def protocolGroupValid : Option String → Bool
  | none => true
  | some s => s == "http" || s == "https" || s == "socks4" || s == "socks5"

/-- Membership of a capture in the group languages of `PROXY_REGEX`.
The username/password group is a single optional unit, so either both
captures participate or neither does. -/
def groupsValid (c : RegexCapture) : Bool :=
  protocolGroupValid c.protocol
    && (match c.username, c.password with
        | none, none => true
        | some u, some p => validUserinfo u.toList && validUserinfo p.toList
        | _, _ => false)
    && (validDomain c.host.toList || validIpv4Host c.host.toList)
    && validPort c.port.toList

/-- ASCII lower-casing, as used by `str::eq_ignore_ascii_case`. -/
def asciiLower (c : Char) : Char :=
  if 'A' ≤ c && c ≤ 'Z' then Char.ofNat (c.toNat + 32) else c

/-- `str::eq_ignore_ascii_case`. -/
def eqIgnoreAsciiCase (a b : String) : Bool :=
  a.toList.map asciiLower == b.toList.map asciiLower

/-- `impl FromStr for ProxyType` (src/proxy.rs 28–38): `http`/`https` map
to `Http`; `socks4` and `socks5` to themselves; anything else errors. -/
def proxyTypeFromStr (s : String) : Option ProxyType :=
  if eqIgnoreAsciiCase s "http" || eqIgnoreAsciiCase s "https" then some .Http
  else if eqIgnoreAsciiCase s "socks4" then some .Socks4
  else if eqIgnoreAsciiCase s "socks5" then some .Socks5
  else none

/-- `str::parse::<u16>` on the digit-only strings produced by the `port`
capture group (the regex admits no sign, so only digits occur). -/
def parsePortU16 (s : String) : Option Nat :=
  let l := s.toList
  if decide (l ≠ []) && l.all isDigitChar && decide (digitsVal l < 65536) then
    some (digitsVal l)
  else none

/-- Loop body of `scrape_one` (src/scraper.rs 191–221) for one match:
resolve the protocol (explicit scheme wins, else the source's default,
`parse` errors propagate), drop disabled protocols, parse the port and
insert into the shared set.  `none` models the `?`-propagated error. -/
def scrapeMatch (enabled : List ProxyType) (defaultProto : ProxyType)
    (st : List Proxy) (c : RegexCapture) : Option (List Proxy) :=
  match (match c.protocol with
         | some s => proxyTypeFromStr s
         | none => some defaultProto) with
  | none => none
  | some proto =>
    if proto ∈ enabled then
      match parsePortU16 c.port with
      | none => none
      | some port =>
        some (insertProxy st
          { protocol := proto, host := c.host, port := port,
            username := c.username, password := c.password,
            timeout := none, exit_ip := none })
    else some st

/-- The `for capture in matches` loop of `scrape_one`. -/
def insertAllMatches (enabled : List ProxyType) (defaultProto : ProxyType) :
    List Proxy → List RegexCapture → Option (List Proxy)
  | st, [] => some st
  | st, c :: cs =>
    match scrapeMatch enabled defaultProto st c with
    | none => none
    | some st' => insertAllMatches enabled defaultProto st' cs

/-- How one `scrape_one` task ended; the first three variants correspond to
the three `tracing::warn!` sites of src/scraper.rs. -/
inductive ScrapeStatus where
  | fetchFailed
  | noProxiesFound
  | tooManyProxies
  | inserted
deriving DecidableEq

/-- `scrape_one` (src/scraper.rs 148–229).  The text fetch is abstracted
as `fetched`: `none` models a fetch error (warn, return `Ok`), `some ms`
the list of `PROXY_REGEX` matches of the fetched text.  `.error` models
the `?`-propagated failure of the task. -/
def scrape_one (maxPerSource : Nat) (enabled : List ProxyType)
    (defaultProto : ProxyType) (st : List Proxy)
    (fetched : Option (List RegexCapture)) :
    Except Unit (List Proxy × ScrapeStatus) :=
  match fetched with
  | none => .ok (st, .fetchFailed)
  | some ms =>
    if ms.isEmpty then .ok (st, .noProxiesFound)
    else if maxPerSource ≠ 0 ∧ ms.length > maxPerSource then
      .ok (st, .tooManyProxies)
    else
      match insertAllMatches enabled defaultProto st ms with
      | some st' => .ok (st', .inserted)
      | none => .error ()

/-- Storage component of a `scrape_one` result. -/
def scrapeStorage : Except Unit (List Proxy × ScrapeStatus) → Option (List Proxy)
  | .ok (st, _) => some st
  | .error _ => none

/-- `scrape_all` (src/scraper.rs 231–282): one task per (default protocol,
source); all tasks insert into one shared set, initially empty; the first
task error aborts the whole stage.  The concurrent interleaving is
linearised — the properties proved below are order-independent. -/
def scrape_all (maxPerSource : Nat) (enabled : List ProxyType) :
    List Proxy → List (ProxyType × Option (List RegexCapture)) →
    Except Unit (List Proxy)
  | st, [] => .ok st
  | st, (proto, fetched) :: rest =>
    match scrape_one maxPerSource enabled proto st fetched with
    | .ok (st', _) => scrape_all maxPerSource enabled st' rest
    | .error e => .error e

/-! ## Scraper invariants (claims C2 and C4) -/

/-- The invariant of the scraped output set: every element has a `u16`
port, an enabled protocol, and the identity tuples are pairwise
distinct. -/
def scrapedInvariant (enabled : List ProxyType) (st : List Proxy) : Prop :=
  (∀ p ∈ st, p.port ≤ 65535 ∧ p.protocol ∈ enabled)
    ∧ st.Pairwise fun a b => proxyIdEq a b = false

lemma insertProxy_invariant {enabled : List ProxyType} {st : List Proxy}
    {p : Proxy} (hst : scrapedInvariant enabled st)
    (hport : p.port ≤ 65535) (hproto : p.protocol ∈ enabled) :
    scrapedInvariant enabled (insertProxy st p) := by
  unfold insertProxy
  split
  · exact hst
  · rename_i hany
    constructor
    · intro q hq
      rcases List.mem_append.mp hq with h | h
      · exact hst.1 q h
      · rcases List.mem_singleton.mp h with rfl
        exact ⟨hport, hproto⟩
    · refine List.pairwise_append.mpr ⟨hst.2, List.pairwise_singleton _ _, ?_⟩
      intro a ha b hb
      rcases List.mem_singleton.mp hb with rfl
      by_contra hne
      exact hany (List.any_eq_true.mpr ⟨a, ha, by simpa using hne⟩)

lemma parsePortU16_le {s : String} {port : Nat}
    (h : parsePortU16 s = some port) : port ≤ 65535 := by
  simp only [parsePortU16] at h
  split at h
  · rename_i hcond
    simp only [Bool.and_eq_true, decide_eq_true_eq] at hcond
    obtain rfl := (Option.some.injEq _ _).mp h
    omega
  · exact absurd h (by simp)

lemma scrapeMatch_invariant {enabled : List ProxyType}
    {defaultProto : ProxyType} {st st' : List Proxy} {c : RegexCapture}
    (hst : scrapedInvariant enabled st)
    (h : scrapeMatch enabled defaultProto st c = some st') :
    scrapedInvariant enabled st' := by
  unfold scrapeMatch at h
  split at h
  · exact absurd h (by simp)
  · split at h
    · rename_i hmem
      split at h
      · exact absurd h (by simp)
      · rename_i port hport
        obtain rfl := (Option.some.injEq _ _).mp h
        exact insertProxy_invariant hst (parsePortU16_le hport) hmem
    · obtain rfl := (Option.some.injEq _ _).mp h
      exact hst

lemma insertAllMatches_invariant {enabled : List ProxyType}
    {defaultProto : ProxyType} :
    ∀ {st st' : List Proxy} {ms : List RegexCapture},
      scrapedInvariant enabled st →
      insertAllMatches enabled defaultProto st ms = some st' →
      scrapedInvariant enabled st' := by
  intro st st' ms
  induction ms generalizing st with
  | nil =>
    intro hst h
    obtain rfl := (Option.some.injEq _ _).mp h
    exact hst
  | cons c cs ih =>
    intro hst h
    unfold insertAllMatches at h
    split at h
    · exact absurd h (by simp)
    · rename_i st1 h1
      exact ih (scrapeMatch_invariant hst h1) h

lemma scrape_one_invariant {maxPerSource : Nat} {enabled : List ProxyType}
    {defaultProto : ProxyType} {st st' : List Proxy}
    {fetched : Option (List RegexCapture)} {status : ScrapeStatus}
    (hst : scrapedInvariant enabled st)
    (h : scrape_one maxPerSource enabled defaultProto st fetched
          = .ok (st', status)) :
    scrapedInvariant enabled st' := by
  unfold scrape_one at h
  split at h
  · cases h
    exact hst
  · split at h
    · cases h
      exact hst
    · split at h
      · cases h
        exact hst
      · split at h
        · cases h
          exact insertAllMatches_invariant hst (by assumption)
        · cases h

lemma scrape_all_invariant {maxPerSource : Nat} {enabled : List ProxyType} :
    ∀ {st st' : List Proxy}
      {sources : List (ProxyType × Option (List RegexCapture))},
      scrapedInvariant enabled st →
      scrape_all maxPerSource enabled st sources = .ok st' →
      scrapedInvariant enabled st' := by
  intro st st' sources
  induction sources generalizing st with
  | nil =>
    intro hst h
    cases h
    exact hst
  | cons s rest ih =>
    intro hst h
    unfold scrape_all at h
    split at h
    · rename_i st1 status h1
      exact ih (scrape_one_invariant hst h1) h
    · cases h

/-- C2 (amended).  For every configuration and every family of sources
(each a default protocol paired with the `PROXY_REGEX` matches of its
fetched text), when the scraping stage succeeds every emitted `Proxy`
satisfies `port ≤ 65535` (ports are parsed into `u16` and the regex also
admits `0`), its protocol lies in the enabled set, and the identity tuple
`(protocol, host, port, username, password)` is unique in the output
set. -/
theorem C2_scraper_invariants (maxPerSource : Nat) (enabled : List ProxyType)
    (sources : List (ProxyType × Option (List RegexCapture)))
    (out : List Proxy)
    (h : scrape_all maxPerSource enabled [] sources = .ok out) :
    (∀ p ∈ out, p.port ≤ 65535 ∧ p.protocol ∈ enabled)
      ∧ out.Pairwise fun a b => proxyIdEq a b = false :=
  scrape_all_invariant ⟨by simp, List.Pairwise.nil⟩ h

/-- Witness for `C2_scraper_invariants`: a run over one source whose text
contains `socks5://10.0.0.1:1080` and `10.0.0.2:1080` (default `Http`). -/
theorem C2_scraper_invariants_witness :
    (∀ p ∈ [⟨ProxyType.Socks5, "10.0.0.1", 1080, none, none, none, none⟩,
            ⟨ProxyType.Http, "10.0.0.2", 1080, none, none, none, none⟩],
        Proxy.port p ≤ 65535 ∧ Proxy.protocol p ∈ [ProxyType.Http, ProxyType.Socks5])
      ∧ List.Pairwise (fun a b => proxyIdEq a b = false)
          [⟨ProxyType.Socks5, "10.0.0.1", 1080, none, none, none, none⟩,
           ⟨ProxyType.Http, "10.0.0.2", 1080, none, none, none, none⟩] :=
  C2_scraper_invariants 0 [ProxyType.Http, ProxyType.Socks5]
    [(ProxyType.Http,
      some [⟨some "socks5", none, none, "10.0.0.1", "1080"⟩,
            ⟨none, none, none, "10.0.0.2", "1080"⟩])]
    [⟨ProxyType.Socks5, "10.0.0.1", 1080, none, none, none, none⟩,
     ⟨ProxyType.Http, "10.0.0.2", 1080, none, none, none, none⟩]
    (by rfl)

/-- C2 (counterexample).  The claim requires `1 ≤ port`, but the `port`
group of `PROXY_REGEX` matches `"0"` (`[0-9]` alternative) and
`"0".parse::<u16>()` succeeds, so a source text such as `"1.2.3.4:0"`
emits a proxy with port 0. -/
theorem C2_counterexample :
    groupsValid ⟨none, none, none, "1.2.3.4", "0"⟩ = true
      ∧ scrape_all 0 [ProxyType.Http] []
          [(ProxyType.Http, some [⟨none, none, none, "1.2.3.4", "0"⟩])]
          = .ok [⟨ProxyType.Http, "1.2.3.4", 0, none, none, none, none⟩]
      ∧ ¬ (∀ p ∈ [(⟨ProxyType.Http, "1.2.3.4", 0, none, none, none, none⟩ : Proxy)],
            1 ≤ Proxy.port p) := by
  refine ⟨by decide, by rfl, by decide⟩

/-- C4.  For each scraped source: when `max_proxies_per_source` is
non-zero and exceeded, the task keeps the storage unchanged, reports the
`"Too many proxies … - skipped"` warning and still returns `Ok`; when the
cap is `0`, the result is exactly that of inserting every match (no cap is
applied). -/
theorem C4_max_proxies_cap (maxPerSource : Nat) (enabled : List ProxyType)
    (defaultProto : ProxyType) (st : List Proxy) (ms : List RegexCapture) :
    (maxPerSource ≠ 0 → ms.length > maxPerSource →
        scrape_one maxPerSource enabled defaultProto st (some ms)
          = .ok (st, .tooManyProxies))
      ∧ scrapeStorage (scrape_one 0 enabled defaultProto st (some ms))
          = insertAllMatches enabled defaultProto st ms := by
  constructor
  · intro hnz hgt
    have hne : ms.isEmpty = false := by
      cases ms with
      | nil => simp at hgt
      | cons a t => rfl
    simp only [scrape_one, hne, Bool.false_eq_true, if_false]
    rw [if_pos ⟨hnz, hgt⟩]
  · simp only [scrape_one]
    cases ms with
    | nil => simp [insertAllMatches, scrapeStorage]
    | cons c cs =>
      simp only [List.isEmpty_cons, Bool.false_eq_true, if_false]
      rw [if_neg (by simp)]
      rcases hia : insertAllMatches enabled defaultProto st (c :: cs) with _ | st' <;>
        simp [scrapeStorage]

/-- Witness for `C4_max_proxies_cap`: two matches against a cap of 1 are
all discarded with the task returning `Ok`; against a cap of 0 both are
inserted. -/
theorem C4_max_proxies_cap_witness :
    (scrape_one 1 [ProxyType.Http] ProxyType.Http []
        (some [⟨none, none, none, "1.2.3.4", "80"⟩,
               ⟨none, none, none, "5.6.7.8", "81"⟩])
        = .ok ([], .tooManyProxies))
      ∧ scrapeStorage (scrape_one 0 [ProxyType.Http] ProxyType.Http []
          (some [⟨none, none, none, "1.2.3.4", "80"⟩,
                 ⟨none, none, none, "5.6.7.8", "81"⟩]))
          = insertAllMatches [ProxyType.Http] ProxyType.Http []
              [⟨none, none, none, "1.2.3.4", "80"⟩,
               ⟨none, none, none, "5.6.7.8", "81"⟩] :=
  ⟨(C4_max_proxies_cap 1 [ProxyType.Http] ProxyType.Http []
      [⟨none, none, none, "1.2.3.4", "80"⟩,
       ⟨none, none, none, "5.6.7.8", "81"⟩]).1 (by decide) (by decide),
   (C4_max_proxies_cap 0 [ProxyType.Http] ProxyType.Http []
      [⟨none, none, none, "1.2.3.4", "80"⟩,
       ⟨none, none, none, "5.6.7.8", "81"⟩]).2⟩

/-! ## Retry middleware (src/http.rs 89–161)

One network attempt is an oracle value: a response with its status and the
parsed value of its `Retry-After-Ms`/`Retry-After` headers (in
milliseconds, as produced by `parse_retry_after`), a transport connect
error, or any other transport error.  Durations are milliseconds.  The
random jitter factor of the backoff lies in `(0.75, 1]` and only scales a
`Some` delay — it never turns it into `None` — so it is omitted from the
delay value; none of the properties below depend on the delay's
magnitude. -/

/-- Outcome of one attempt, as seen by `RetryMiddleware::handle`. -/
inductive FetchOutcome where
  | ok (status : Nat) (retryAfterMs : Option Nat)
  | errConnect
  | errOther
deriving DecidableEq

/-- What `handle` returns to its caller. -/
inductive HandleResult where
  | success (status : Nat)
  | statusError (status : Nat)
  | connectError
  | otherError
deriving DecidableEq

/-- `RETRY_STATUSES` (src/http.rs 14–21). -/
def retryStatuses : List Nat := [408, 429, 500, 502, 503, 504]

/-- `calculate_retry_timeout` (src/http.rs 89–107): a parsed server hint
wins unless it exceeds 60 s, in which case no retry happens; otherwise
exponential backoff `500ms · 2^attempt` capped at 8 s. -/
def calculateRetryTimeout (retryAfterMs : Option Nat) (attempt : Nat) :
    Option Nat :=
  match retryAfterMs with
  | some after => if 60000 < after then none else some after
  | none => some (min (500 * 2 ^ attempt) 8000)

/-- `DEFAULT_MAX_RETRIES` is 2; the loop retries after attempt `i`
exactly under this condition (src/http.rs 127–157). -/
def wouldRetry (o : FetchOutcome) (attempt : Nat) : Bool :=
  match o with
  | .ok s ra =>
    decide ((400 ≤ s ∧ s ≤ 599) ∧ attempt < 2 ∧ s ∈ retryStatuses
      ∧ (calculateRetryTimeout ra attempt).isSome = true)
  | .errConnect =>
    decide (attempt < 2 ∧ (calculateRetryTimeout none attempt).isSome = true)
  | .errOther => false

/-- Result of an attempt when no retry follows it: `error_for_status` on a
4xx/5xx, the response otherwise, errors passed through. -/
def singleResult : FetchOutcome → HandleResult
  | .ok s _ => if 400 ≤ s ∧ s ≤ 599 then .statusError s else .success s
  | .errConnect => .connectError
  | .errOther => .otherError

/-- The retry loop of `RetryMiddleware::handle` from attempt `attempt`
on; returns the surfaced result and the number of requests issued. -/
def handleFrom (responses : Nat → FetchOutcome) (attempt : Nat) :
    HandleResult × Nat :=
  match responses attempt with
  | .ok status ra =>
    if 400 ≤ status ∧ status ≤ 599 then
      if h : attempt < 2 ∧ status ∈ retryStatuses
          ∧ (calculateRetryTimeout ra attempt).isSome = true then
        let r := handleFrom responses (attempt + 1)
        (r.1, r.2 + 1)
      else (.statusError status, 1)
    else (.success status, 1)
  | .errConnect =>
    if h : attempt < 2 ∧ (calculateRetryTimeout none attempt).isSome = true then
      let r := handleFrom responses (attempt + 1)
      (r.1, r.2 + 1)
    else (.connectError, 1)
  | .errOther => (.otherError, 1)
termination_by 2 - attempt
decreasing_by all_goals omega

/-- `RetryMiddleware::handle` (src/http.rs 113–160). -/
def handle (responses : Nat → FetchOutcome) : HandleResult × Nat :=
  handleFrom responses 0

lemma handleFrom_no_retry {responses : Nat → FetchOutcome} {a : Nat}
    (h : wouldRetry (responses a) a = false) :
    handleFrom responses a = (singleResult (responses a), 1) := by
  unfold handleFrom
  rcases hra : responses a with ⟨s, ra⟩ | _ | _ <;>
    rw [hra] at h <;> simp only [wouldRetry, decide_eq_false_iff_not] at h <;>
    dsimp only
  · by_cases herr : 400 ≤ s ∧ s ≤ 599
    · rw [if_pos herr, dif_neg fun hc => h ⟨herr, hc⟩]
      simp [singleResult, herr]
    · rw [if_neg herr]
      simp [singleResult, herr]
  · rw [dif_neg h]
    simp [singleResult]
  · simp [singleResult]

lemma handleFrom_retry {responses : Nat → FetchOutcome} {a : Nat}
    (h : wouldRetry (responses a) a = true) :
    handleFrom responses a
      = ((handleFrom responses (a + 1)).1, (handleFrom responses (a + 1)).2 + 1) := by
  conv_lhs => rw [handleFrom]
  rcases hra : responses a with ⟨s, ra⟩ | _ | _ <;>
    rw [hra] at h <;> simp only [wouldRetry, decide_eq_true_eq] at h <;>
    dsimp only
  · rw [if_pos h.1, dif_pos h.2]
  · rw [dif_pos h]
  · exact absurd h (by simp)

lemma wouldRetry_two (o : FetchOutcome) : wouldRetry o 2 = false := by
  rcases o with ⟨s, ra⟩ | _ | _ <;> simp [wouldRetry]

/-- C3.  The scrape-side fetcher issues at most 3 requests per fetch
(1 original + 2 retries); a further attempt is made only when the previous
one was a transport connect error or carried a status in
{408, 429, 500, 502, 503, 504}; no retry happens when the server-provided
delay exceeds 60 s; any other error is surfaced immediately; and four
consecutive 502s yield exactly three requests and a surfaced status
error. -/
theorem C3_retry_policy (responses : Nat → FetchOutcome) :
    (handle responses).2 ≤ 3
      ∧ (2 ≤ (handle responses).2 → wouldRetry (responses 0) 0 = true)
      ∧ (3 ≤ (handle responses).2 → wouldRetry (responses 1) 1 = true)
      ∧ (∀ s ra a, 60000 < ra → wouldRetry (.ok s (some ra)) a = false)
      ∧ (responses 0 = .errOther → handle responses = (.otherError, 1))
      ∧ (∀ s ra, 400 ≤ s → s ≤ 599 → s ∉ retryStatuses →
          responses 0 = .ok s ra → handle responses = (.statusError s, 1))
      ∧ ((∀ i, responses i = .ok 502 none) →
          handle responses = (.statusError 502, 3)) := by
  have hgen : ∀ s ra a, 60000 < ra → wouldRetry (.ok s (some ra)) a = false := by
    intro s ra a hgt
    simp [wouldRetry, calculateRetryTimeout, hgt]
  rcases hb0 : wouldRetry (responses 0) 0 with _ | _
  · have hn : handle responses = (singleResult (responses 0), 1) :=
      handleFrom_no_retry hb0
    refine ⟨by rw [hn]; simp, ?_, ?_, hgen, ?_, ?_, ?_⟩
    · intro habs
      rw [hn] at habs
      simp at habs
    · intro habs
      rw [hn] at habs
      simp at habs
    · intro hr0
      rw [hn, hr0]
      rfl
    · intro s ra h4 h5 hmem hr0
      rw [hn, hr0]
      simp [singleResult, h4, h5]
    · intro hall
      rw [hall 0] at hb0
      exact absurd hb0 (by decide)
  · have e0 := handleFrom_retry hb0
    rcases hb1 : wouldRetry (responses 1) 1 with _ | _
    · have e1 := handleFrom_no_retry hb1
      have hn : handle responses = (singleResult (responses 1), 2) := by
        show handleFrom responses 0 = _
        rw [e0, e1]
      refine ⟨by rw [hn]; simp, fun _ => rfl, ?_, hgen, ?_, ?_, ?_⟩
      · intro habs
        rw [hn] at habs
        simp at habs
      · intro hr0
        rw [hr0] at hb0
        exact absurd hb0 (by decide)
      · intro s ra h4 h5 hmem hr0
        rw [hr0] at hb0
        simp only [wouldRetry, decide_eq_true_eq] at hb0
        exact absurd hb0.2.2.1 hmem
      · intro hall
        rw [hall 1] at hb1
        exact absurd hb1 (by decide)
    · have e1 := handleFrom_retry hb1
      have e2 := handleFrom_no_retry (wouldRetry_two (responses 2))
      have hn : handle responses = (singleResult (responses 2), 3) := by
        show handleFrom responses 0 = _
        rw [e0, e1, e2]
      refine ⟨by rw [hn], fun _ => rfl, fun _ => rfl, hgen, ?_, ?_, ?_⟩
      · intro hr0
        rw [hr0] at hb0
        exact absurd hb0 (by decide)
      · intro s ra h4 h5 hmem hr0
        rw [hr0] at hb0
        simp only [wouldRetry, decide_eq_true_eq] at hb0
        exact absurd hb0.2.2.1 hmem
      · intro hall
        rw [hn, hall 2]
        rfl

/-- Witness for `C3_retry_policy`: a server that always answers 502 (no
`Retry-After`) gets exactly three requests and a surfaced status error. -/
theorem C3_retry_policy_witness :
    handle (fun _ => FetchOutcome.ok 502 none) = (.statusError 502, 3)
      ∧ (handle (fun _ => FetchOutcome.ok 502 none)).2 ≤ 3 :=
  ⟨(C3_retry_policy (fun _ => FetchOutcome.ok 502 none)).2.2.2.2.2.2
      (fun _ => rfl),
    (C3_retry_policy (fun _ => FetchOutcome.ok 502 none)).1⟩

/-! ## Checker (src/checker.rs, `Proxy::check` in src/proxy.rs 156–185)

A probe through one proxy is an oracle value: a transport error, or a
response with its final status and (optionally) decoded body (`none`
models a body-decoding failure after the response line).  `check_all`'s
worker pool consumes the queue with `Vec::pop` (back to front) and pushes
every passing proxy into the results vector; the interleaving of workers
is linearised here — the proved properties are schedule-independent.
Elapsed times come from the monotonic clock, one reading per probe,
through the oracle `el`. -/

/-- Outcome of the probe request of `Proxy::check`. -/
inductive ProbeOutcome where
  | transportErr
  | response (status : Nat) (body : Option String)
deriving DecidableEq

/-- src/proxy.rs 175–182: `exit_ip` from the (optionally decoded) body. -/
def bodyExitIp : Option String → Option String
  | none => none
  | some text => checkExitIp text

/-- `Proxy::check` (src/proxy.rs 156–185): no-op `Ok` when no check URL is
configured; `?` on transport errors; `error_for_status` turns a 4xx/5xx
into `Err`; otherwise `timeout := start.elapsed()` and `exit_ip` from the
body. -/
def proxyCheck (checkUrl : Option Unit) (p : Proxy) (outcome : ProbeOutcome)
    (elapsed : Nat) : Except Unit Proxy :=
  match checkUrl with
  | none => .ok p
  | some _ =>
    match outcome with
    | .transportErr => .error ()
    | .response status body =>
      if 400 ≤ status ∧ status ≤ 599 then .error ()
      else .ok { p with timeout := some elapsed, exit_ip := bodyExitIp body }

/-- The worker loop of `check_all` (src/checker.rs 43–73), linearised:
probe the proxies in pop order (`l` is the reversed queue), numbering the
probes by `i`; keep the passing ones. -/
def runChecks (oc : Nat → ProbeOutcome) (el : Nat → Nat) :
    List Proxy → Nat → List Proxy
  | [], _ => []
  | p :: rest, i =>
    match proxyCheck (some ()) p (oc i) (el i) with
    | .ok p' => p' :: runChecks oc el rest (i + 1)
    | .error _ => runChecks oc el rest (i + 1)

/-- `check_all` (src/checker.rs 9–95): identity when no check URL is
configured; otherwise `min(max_concurrent_checks, |queue|)` workers, which
is returned as the second component; zero workers short-circuit to an
empty result. -/
def check_all (checkUrl : Option Unit) (maxConcurrent : Nat)
    (proxies : List Proxy) (oc : Nat → ProbeOutcome) (el : Nat → Nat) :
    List Proxy × Nat :=
  match checkUrl with
  | none => (proxies, 0)
  | some _ =>
    let workers := min maxConcurrent proxies.length
    if workers = 0 then ([], workers)
    else (runChecks oc el proxies.reverse 0, workers)

lemma proxyCheck_some_ok {p : Proxy} {o : ProbeOutcome} {t : Nat} {p' : Proxy}
    (h : proxyCheck (some ()) p o t = .ok p') :
    ∃ s b, o = .response s b ∧ ¬ (400 ≤ s ∧ s ≤ 599)
      ∧ p' = { p with timeout := some t, exit_ip := bodyExitIp b } := by
  rcases o with _ | ⟨s, b⟩
  · exact absurd h (by simp [proxyCheck])
  · simp only [proxyCheck] at h
    split at h
    · cases h
    · rename_i hs
      exact ⟨s, b, rfl, hs, ((Except.ok.injEq _ _).mp h).symm⟩

lemma proxyCheck_some_ok_of {p : Proxy} {s : Nat} {b : Option String} {t : Nat}
    (hs : ¬ (400 ≤ s ∧ s ≤ 599)) :
    proxyCheck (some ()) p (.response s b) t
      = .ok { p with timeout := some t, exit_ip := bodyExitIp b } := by
  simp only [proxyCheck]
  rw [if_neg hs]

lemma runChecks_sound {oc : Nat → ProbeOutcome} {el : Nat → Nat} :
    ∀ {l : List Proxy} {i : Nat} {p' : Proxy}, p' ∈ runChecks oc el l i →
      ∃ j q s b, q ∈ l ∧ i ≤ j ∧ oc j = .response s b
        ∧ ¬ (400 ≤ s ∧ s ≤ 599)
        ∧ p' = { q with timeout := some (el j), exit_ip := bodyExitIp b } := by
  intro l
  induction l with
  | nil =>
    intro i p' h
    simp [runChecks] at h
  | cons p rest ih =>
    intro i p' h
    unfold runChecks at h
    rcases ho : proxyCheck (some ()) p (oc i) (el i) with e | pp <;> rw [ho] at h
    · obtain ⟨j, q, s, b, hq, hij, h3, h4, h5⟩ := ih h
      exact ⟨j, q, s, b, List.mem_cons_of_mem _ hq, by omega, h3, h4, h5⟩
    · rcases List.mem_cons.mp h with rfl | hmem
      · obtain ⟨s, b, hoc, hs, hpp⟩ := proxyCheck_some_ok ho
        exact ⟨i, p, s, b, List.mem_cons_self _ _, Nat.le_refl _, hoc, hs, hpp⟩
      · obtain ⟨j, q, s, b, hq, hij, h3, h4, h5⟩ := ih hmem
        exact ⟨j, q, s, b, List.mem_cons_of_mem _ hq, by omega, h3, h4, h5⟩

lemma runChecks_complete {oc : Nat → ProbeOutcome} {el : Nat → Nat} :
    ∀ {l : List Proxy} {i j : Nat} (hj : j < l.length) {s : Nat}
      {b : Option String},
      oc (i + j) = .response s b → ¬ (400 ≤ s ∧ s ≤ 599) →
      { l.get ⟨j, hj⟩ with
          timeout := some (el (i + j)), exit_ip := bodyExitIp b }
        ∈ runChecks oc el l i := by
  intro l
  induction l with
  | nil =>
    intro i j hj
    simp at hj
  | cons p rest ih =>
    intro i j hj s b hoc hs
    cases j with
    | zero =>
      rw [Nat.add_zero] at hoc ⊢
      unfold runChecks
      rw [hoc, proxyCheck_some_ok_of hs]
      exact List.mem_cons_self _ _
    | succ j' =>
      have hidx : i + (j' + 1) = (i + 1) + j' := by omega
      rw [hidx] at hoc ⊢
      have hj' : j' < rest.length := by
        simp at hj
        omega
      have hmem := ih (i := i + 1) hj' hoc hs
      unfold runChecks
      rcases ho : proxyCheck (some ()) p (oc i) (el i) with e | pp
      · exact hmem
      · exact List.mem_cons_of_mem _ hmem

/-- C6.  `check_all` returns its input list unchanged (same proxies, same
measurement fields) when the check URL is unconfigured; for an empty input
it returns the empty list; and when a check URL is configured it runs
exactly `min(max_concurrent_checks, |input|)` workers. -/
theorem C6_check_all_shape (u : Option Unit) (maxC : Nat)
    (proxies : List Proxy) (oc : Nat → ProbeOutcome) (el : Nat → Nat) :
    (check_all none maxC proxies oc el).1 = proxies
      ∧ (check_all u maxC [] oc el).1 = []
      ∧ (u = some () →
          (check_all u maxC proxies oc el).2 = min maxC proxies.length) := by
  refine ⟨rfl, ?_, ?_⟩
  · rcases u with _ | _
    · rfl
    · simp [check_all]
  · rintro rfl
    by_cases h : min maxC proxies.length = 0 <;> simp [check_all, h]

/-- Witness for `C6_check_all_shape`: with a configured URL, 64 allowed
workers and one queued proxy, exactly `min 64 1 = 1` worker runs. -/
theorem C6_check_all_shape_witness :
    (check_all (some ()) 64 [⟨.Http, "h", 1, none, none, none, none⟩]
        (fun _ => .transportErr) (fun _ => 0)).2 = min 64 1 :=
  (C6_check_all_shape (some ()) 64 [⟨.Http, "h", 1, none, none, none, none⟩]
      (fun _ => .transportErr) (fun _ => 0)).2.2 rfl

/-- C5 (amended).  Assuming a check URL is configured, every `Proxy` in
the checker's output has `timeout` present (and ≥ 0: Rust durations are
unsigned, modelled by `Nat`), where the timeout was set from the monotonic
clock only after a probe response whose status was not a client or server
error (400–599) — in particular after every 2xx; and a probe whose body
fails to decode after such a status still puts the proxy in the output,
with `exit_ip` absent. -/
theorem C5_checker_timeouts (maxC : Nat) (queue : List Proxy)
    (oc : Nat → ProbeOutcome) (el : Nat → Nat) :
    (∀ p' ∈ (check_all (some ()) maxC queue oc el).1,
        p'.timeout.isSome = true
          ∧ ∃ j q s b, q ∈ queue ∧ oc j = .response s b
              ∧ ¬ (400 ≤ s ∧ s ≤ 599)
              ∧ p' = { q with timeout := some (el j), exit_ip := bodyExitIp b }
              ∧ (b = none → p'.exit_ip = none))
      ∧ (∀ (j : Nat) (hj : j < queue.reverse.length) (s : Nat)
            (b : Option String),
          maxC ≠ 0 → oc j = .response s b → ¬ (400 ≤ s ∧ s ≤ 599) →
          { queue.reverse.get ⟨j, hj⟩ with
              timeout := some (el j), exit_ip := bodyExitIp b }
            ∈ (check_all (some ()) maxC queue oc el).1) := by
  constructor
  · intro p' hp'
    simp only [check_all] at hp'
    split at hp'
    · simp at hp'
    · obtain ⟨j, q, s, b, hq, -, hoc, hs, hform⟩ := runChecks_sound hp'
      refine ⟨by rw [hform]; rfl, j, q, s, b, List.mem_reverse.mp hq, hoc, hs,
        hform, ?_⟩
      rintro rfl
      rw [hform]
      rfl
  · intro j hj s b hmax hoc hs
    have hlen : queue.length ≠ 0 := by
      rw [List.length_reverse] at hj
      omega
    have hw : min maxC queue.length ≠ 0 := by omega
    have hres : (check_all (some ()) maxC queue oc el).1
        = runChecks oc el queue.reverse 0 := by
      simp only [check_all]
      rw [if_neg hw]
    rw [hres]
    have := @runChecks_complete oc el queue.reverse 0 j hj s b
      (by simpa using hoc) hs
    simpa using this

/-- Witness for `C5_checker_timeouts`: one proxy probed with a `204`
response whose body fails to decode stays in the output with its timeout
set and `exit_ip` absent. -/
theorem C5_checker_timeouts_witness :
    ({ (⟨.Http, "1.2.3.4", 80, none, none, none, none⟩ : Proxy) with
        timeout := some 7, exit_ip := bodyExitIp none }
      ∈ (check_all (some ()) 3 [⟨.Http, "1.2.3.4", 80, none, none, none, none⟩]
          (fun _ => .response 204 none) (fun _ => 7)).1) :=
  (C5_checker_timeouts 3 [⟨.Http, "1.2.3.4", 80, none, none, none, none⟩]
      (fun _ => .response 204 none) (fun _ => 7)).2
    0 (by decide) 204 none (by decide) rfl (by decide)

/-- C5 (counterexample).  The claim allows `timeout` to be set only after
a 2xx response, but `Proxy::check` validates the status with
`error_for_status`, which rejects only 400–599: a probe whose final
response is `304 Not Modified` also sets `timeout` and keeps the proxy in
the output. -/
theorem C5_counterexample :
    (check_all (some ()) 1 [⟨.Http, "1.2.3.4", 80, none, none, none, none⟩]
          (fun _ => .response 304 (some "x")) (fun _ => 5)).1
        = [⟨.Http, "1.2.3.4", 80, none, none, some 5, none⟩]
      ∧ ¬ (200 ≤ 304 ∧ 304 ≤ 299) := by
  exact ⟨rfl, by decide⟩

/-! ## Exporter sorting (src/output.rs 17–27, 57–65)

`save_proxies` sorts with `Vec::sort_by_key`, a *stable* sort; the output
of a stable sort is uniquely determined by the key order and the input
sequence, so Mathlib's `List.insertionSort` with the reflexive key
relation (which is stable) is an exact model.  Rust `Duration` is
modelled as total nanoseconds; `Duration::MAX` is
`u64::MAX` seconds + `999_999_999` nanoseconds. -/

/-- `tokio::time::Duration::MAX` in nanoseconds. -/
def durationMax : Nat := 18446744073709551615 * 1000000000 + 999999999

/-- `sort_by_timeout` (src/output.rs 17–19): the sort key
`timeout.unwrap_or(Duration::MAX)`. -/
def sort_by_timeout (p : Proxy) : Nat :=
  p.timeout.getD durationMax

/-- `host.parse::<Ipv4Addr>()`: a strict dotted quad, each octet a
decimal `u8` without leading zeros — the same octet language as
`validOctet`. -/
def rustParseIpv4 (s : String) : Option (List Nat) :=
  match s.toList.splitOn '.' with
  | [a, b, c, d] =>
    if validOctet a && validOctet b && validOctet c && validOctet d then
      some [digitsVal a, digitsVal b, digitsVal c, digitsVal d]
    else none
  | _ => none

/-- The host component of the `sort_naturally` key (src/output.rs 21–27):
the four octets for an IPv4 literal, otherwise four `u8::MAX` bytes
followed by the host's bytes (the hosts produced by `PROXY_REGEX` are
ASCII, so code points equal UTF-8 bytes). -/
def hostKey (p : Proxy) : List Nat :=
  match rustParseIpv4 p.host with
  | some octs => octs
  | none => [255, 255, 255, 255] ++ p.host.toList.map Char.toNat

/-- The derived `Ord` on `ProxyType` follows declaration order. -/
def protoIdx : ProxyType → Nat
  | .Http => 0
  | .Socks4 => 1
  | .Socks5 => 2

/-- `sort_naturally` (src/output.rs 21–27): the key
`(protocol, host key, port)`. -/
def sort_naturally (p : Proxy) : Nat × List Nat × Nat :=
  (protoIdx p.protocol, hostKey p, p.port)

/-- Strict lexicographic order on byte vectors (`Vec<u8>`'s derived
`Ord`). -/
def listLt : List Nat → List Nat → Bool
  | [], [] => false
  | [], _ :: _ => true
  | _ :: _, [] => false
  | a :: l₁, b :: l₂ => decide (a < b) || (decide (a = b) && listLt l₁ l₂)

/-- `≤` for the lexicographic `Ord` on the `sort_naturally` key tuple. -/
def naturalLe (p q : Proxy) : Prop :=
  protoIdx p.protocol < protoIdx q.protocol
    ∨ (protoIdx p.protocol = protoIdx q.protocol
        ∧ (listLt (hostKey p) (hostKey q) = true
            ∨ (hostKey p = hostKey q ∧ p.port ≤ q.port)))

instance : DecidableRel naturalLe := fun p q => by
  unfold naturalLe
  infer_instance

/-- `proxies.sort_by_key(sort_by_timeout)` (src/output.rs 61–62). -/
def sortBySpeed (l : List Proxy) : List Proxy :=
  l.insertionSort fun p q => sort_by_timeout p ≤ sort_by_timeout q

/-- `proxies.sort_by_key(sort_naturally)` (src/output.rs 63–64). -/
def sortNaturally (l : List Proxy) : List Proxy :=
  l.insertionSort naturalLe

lemma listLt_trans :
    ∀ {a b c : List Nat}, listLt a b = true → listLt b c = true →
      listLt a c = true := by
  intro a
  induction a with
  | nil =>
    intro b c hab hbc
    cases b with
    | nil => simp [listLt] at hab
    | cons y l₂ =>
      cases c with
      | nil => simp [listLt] at hbc
      | cons z l₃ => simp [listLt]
  | cons x l₁ ih =>
    intro b c hab hbc
    cases b with
    | nil => simp [listLt] at hab
    | cons y l₂ =>
      cases c with
      | nil => simp [listLt] at hbc
      | cons z l₃ =>
        simp only [listLt, Bool.or_eq_true, Bool.and_eq_true,
          decide_eq_true_eq] at hab hbc ⊢
        rcases hab with h1 | ⟨rfl, h1⟩
        · rcases hbc with h2 | ⟨rfl, h2⟩
          · exact Or.inl (by omega)
          · exact Or.inl h1
        · rcases hbc with h2 | ⟨rfl, h2⟩
          · exact Or.inl h2
          · exact Or.inr ⟨rfl, ih h1 h2⟩

lemma listLt_total :
    ∀ a b : List Nat, listLt a b = true ∨ a = b ∨ listLt b a = true := by
  intro a
  induction a with
  | nil =>
    intro b
    cases b with
    | nil => exact Or.inr (Or.inl rfl)
    | cons y l₂ => exact Or.inl (by simp [listLt])
  | cons x l₁ ih =>
    intro b
    cases b with
    | nil => exact Or.inr (Or.inr (by simp [listLt]))
    | cons y l₂ =>
      rcases Nat.lt_trichotomy x y with h | h | h
      · exact Or.inl (by simp [listLt, h])
      · subst h
        rcases ih l₂ with h2 | h2 | h2
        · exact Or.inl (by simp [listLt, h2])
        · exact Or.inr (Or.inl (by rw [h2]))
        · exact Or.inr (Or.inr (by simp [listLt, h2]))
      · exact Or.inr (Or.inr (by simp [listLt, h]))

lemma naturalLe_total : ∀ p q : Proxy, naturalLe p q ∨ naturalLe q p := by
  intro p q
  unfold naturalLe
  rcases Nat.lt_trichotomy (protoIdx p.protocol) (protoIdx q.protocol)
    with h | h | h
  · exact Or.inl (Or.inl h)
  · rcases listLt_total (hostKey p) (hostKey q) with h2 | h2 | h2
    · exact Or.inl (Or.inr ⟨h, Or.inl h2⟩)
    · rcases Nat.le_total p.port q.port with h3 | h3
      · exact Or.inl (Or.inr ⟨h, Or.inr ⟨h2, h3⟩⟩)
      · exact Or.inr (Or.inr ⟨h.symm, Or.inr ⟨h2.symm, h3⟩⟩)
    · exact Or.inr (Or.inr ⟨h.symm, Or.inl h2⟩)
  · exact Or.inr (Or.inl h)

lemma naturalLe_trans {a b c : Proxy} (hab : naturalLe a b)
    (hbc : naturalLe b c) : naturalLe a c := by
  unfold naturalLe at hab hbc ⊢
  rcases hab with h1 | ⟨e1, h1⟩
  · rcases hbc with h2 | ⟨e2, h2⟩
    · exact Or.inl (by omega)
    · exact Or.inl (by omega)
  · rcases hbc with h2 | ⟨e2, h2⟩
    · exact Or.inl (by omega)
    · refine Or.inr ⟨by omega, ?_⟩
      rcases h1 with h1 | ⟨e1h, h1⟩
      · rcases h2 with h2 | ⟨e2h, h2⟩
        · exact Or.inl (listLt_trans h1 h2)
        · exact Or.inl (by rw [← e2h]; exact h1)
      · rcases h2 with h2 | ⟨e2h, h2⟩
        · exact Or.inl (by rw [e1h]; exact h2)
        · exact Or.inr ⟨e1h.trans e2h, Nat.le_trans h1 h2⟩

instance : IsTotal Proxy naturalLe := ⟨naturalLe_total⟩

instance : IsTrans Proxy naturalLe := ⟨fun _ _ _ => naturalLe_trans⟩

instance : IsTotal Proxy fun p q => sort_by_timeout p ≤ sort_by_timeout q :=
  ⟨fun a b => Nat.le_total (sort_by_timeout a) (sort_by_timeout b)⟩

instance : IsTrans Proxy fun p q => sort_by_timeout p ≤ sort_by_timeout q :=
  ⟨fun _ _ _ => Nat.le_trans⟩

lemma validOctet_val_le {l : List Char} (h : validOctet l = true) :
    digitsVal l ≤ 255 := by
  simp only [validOctet, Bool.and_eq_true, Bool.or_eq_true,
    decide_eq_true_eq] at h
  exact h.2

lemma rustParseIpv4_bounds {s : String} {o : List Nat}
    (h : rustParseIpv4 s = some o) :
    ∃ a b c d, o = [a, b, c, d]
      ∧ a ≤ 255 ∧ b ≤ 255 ∧ c ≤ 255 ∧ d ≤ 255 := by
  unfold rustParseIpv4 at h
  split at h
  · rename_i a b c d heq
    split at h
    · rename_i hv
      simp only [Bool.and_eq_true] at hv
      obtain rfl := (Option.some.injEq _ _).mp h
      exact ⟨_, _, _, _, rfl, validOctet_val_le hv.1.1.1,
        validOctet_val_le hv.1.1.2, validOctet_val_le hv.1.2,
        validOctet_val_le hv.2⟩
    · cases h
  · cases h

lemma listLt_four {a b c d : Nat} (ha : a ≤ 255) (hb : b ≤ 255)
    (hc : c ≤ 255) (hd : d ≤ 255) {rest : List Nat} (hres : rest ≠ []) :
    listLt [a, b, c, d] (255 :: 255 :: 255 :: 255 :: rest) = true := by
  rcases rest with _ | ⟨x, rest⟩
  · exact absurd rfl hres
  · simp only [listLt, Bool.or_eq_true, Bool.and_eq_true, decide_eq_true_eq]
    rcases Nat.lt_or_eq_of_le ha with h1 | h1
    · exact Or.inl h1
    · refine Or.inr ⟨h1, ?_⟩
      rcases Nat.lt_or_eq_of_le hb with h2 | h2
      · exact Or.inl h2
      · refine Or.inr ⟨h2, ?_⟩
        rcases Nat.lt_or_eq_of_le hc with h3 | h3
        · exact Or.inl h3
        · refine Or.inr ⟨h3, ?_⟩
          rcases Nat.lt_or_eq_of_le hd with h4 | h4
          · exact Or.inl h4
          · exact Or.inr ⟨h4, trivial⟩

lemma hostKey_ipv4_lt_hostname {p q : Proxy} {o : List Nat}
    (hp : rustParseIpv4 p.host = some o) (hq : rustParseIpv4 q.host = none)
    (hne : q.host ≠ "") : listLt (hostKey p) (hostKey q) = true := by
  obtain ⟨a, b, c, d, rfl, ha, hb, hc, hd⟩ := rustParseIpv4_bounds hp
  have hkp : hostKey p = [a, b, c, d] := by
    unfold hostKey
    rw [hp]
  have hkq : hostKey q
      = 255 :: 255 :: 255 :: 255 :: q.host.toList.map Char.toNat := by
    unfold hostKey
    rw [hq]
    rfl
  rw [hkp, hkq]
  refine listLt_four ha hb hc hd ?_
  intro habs
  apply hne
  have : q.host.toList = [] := by
    rcases hl : q.host.toList with _ | ⟨x, t⟩
    · rfl
    · rw [hl] at habs
      simp at habs
  rcases hqh : q.host with ⟨data⟩
  rw [hqh] at this
  simp only [String.toList] at this
  rw [this]

/-- C7 (amended).  The exporter's sort is a stable sort by key, hence a
pure function of the input sequence: with `sort_by_speed` the key is
`timeout.unwrap_or(Duration::MAX)`, so an absent timeout sorts after every
present timeout below `Duration::MAX` (and ties — including
`Some(Duration::MAX)` vs `None` — keep input order); otherwise the key is
(protocol enum order, host key, port) lexicographically, with IPv4 hosts
(compared by octets) strictly before non-empty hostnames.  Both sorts
return a permutation of the input sorted by their key relation. -/
theorem C7_export_sort (l : List Proxy) :
    (sortBySpeed l).Perm l
      ∧ List.Sorted (fun p q => sort_by_timeout p ≤ sort_by_timeout q)
          (sortBySpeed l)
      ∧ (sortNaturally l).Perm l
      ∧ List.Sorted naturalLe (sortNaturally l)
      ∧ (∀ p q : Proxy, ∀ t : Nat, p.timeout = some t → t < durationMax →
          q.timeout = none → sort_by_timeout p < sort_by_timeout q)
      ∧ (∀ p q : Proxy, ∀ o : List Nat, rustParseIpv4 p.host = some o →
          rustParseIpv4 q.host = none → q.host ≠ "" →
          listLt (hostKey p) (hostKey q) = true) := by
  refine ⟨List.perm_insertionSort _ l, List.sorted_insertionSort _ l,
    List.perm_insertionSort _ l, List.sorted_insertionSort _ l, ?_, ?_⟩
  · intro p q t hp hlt hq
    simp only [sort_by_timeout, hp, hq, Option.getD]
    exact hlt
  · intro p q o hp hq hne
    exact hostKey_ipv4_lt_hostname hp hq hne

/-- Witness for `C7_export_sort`: concrete checks of the key facts — a
1-second timeout sorts strictly before an absent one, and the IPv4 host
`255.255.255.255` sorts strictly before the hostname `"a"`. -/
theorem C7_export_sort_witness :
    sort_by_timeout ⟨.Http, "h", 1, none, none, some 1000000000, none⟩
        < sort_by_timeout ⟨.Http, "h", 1, none, none, none, none⟩
      ∧ listLt
          (hostKey ⟨.Http, "255.255.255.255", 1, none, none, none, none⟩)
          (hostKey ⟨.Http, "a", 1, none, none, none, none⟩) = true :=
  ⟨(C7_export_sort []).2.2.2.2.1
      ⟨.Http, "h", 1, none, none, some 1000000000, none⟩
      ⟨.Http, "h", 1, none, none, none, none⟩ 1000000000 rfl (by decide) rfl,
    (C7_export_sort []).2.2.2.2.2
      ⟨.Http, "255.255.255.255", 1, none, none, none, none⟩
      ⟨.Http, "a", 1, none, none, none, none⟩ [255, 255, 255, 255]
      (by decide) (by decide) (by decide)⟩

/-- C7 (counterexample).  The sort is *not* deterministic given only the
input multiset: two distinct proxies with equal keys (same identity except
`username`, both without a timeout) come out in input order, so the two
orderings of the same multiset produce different outputs.  Also `None` is
keyed as `Duration::MAX`, so it does not sort after a proxy whose timeout
is `Some(Duration::MAX)` that precedes it in the input. -/
theorem C7_counterexample :
    (sortBySpeed [⟨.Http, "h", 1, some "a", some "x", none, none⟩,
                  ⟨.Http, "h", 1, some "b", some "x", none, none⟩]
        = [⟨.Http, "h", 1, some "a", some "x", none, none⟩,
           ⟨.Http, "h", 1, some "b", some "x", none, none⟩])
      ∧ (sortBySpeed [⟨.Http, "h", 1, some "b", some "x", none, none⟩,
                      ⟨.Http, "h", 1, some "a", some "x", none, none⟩]
          = [⟨.Http, "h", 1, some "b", some "x", none, none⟩,
             ⟨.Http, "h", 1, some "a", some "x", none, none⟩])
      ∧ List.Perm
          [(⟨.Http, "h", 1, some "a", some "x", none, none⟩ : Proxy),
           ⟨.Http, "h", 1, some "b", some "x", none, none⟩]
          [⟨.Http, "h", 1, some "b", some "x", none, none⟩,
           ⟨.Http, "h", 1, some "a", some "x", none, none⟩]
      ∧ (⟨.Http, "h", 1, some "a", some "x", none, none⟩ : Proxy)
          ≠ ⟨.Http, "h", 1, some "b", some "x", none, none⟩
      ∧ (sortBySpeed [⟨.Http, "h", 1, none, none, none, none⟩,
                      ⟨.Http, "h", 2, none, none, some durationMax, none⟩]
          = [⟨.Http, "h", 1, none, none, none, none⟩,
             ⟨.Http, "h", 2, none, none, some durationMax, none⟩]) := by
  refine ⟨by decide, by decide, List.Perm.swap _ _ _, by decide, by decide⟩

/-! ## Text export (src/output.rs 250–267, src/proxy.rs 187–219) -/

/-- `ProxyType::as_str_lowercase` (src/proxy.rs 42–48). -/
def protoStrLower : ProxyType → String
  | .Http => "http"
  | .Socks4 => "socks4"
  | .Socks5 => "socks5"

/-- `Proxy::write_to_sink`/`to_string` (src/proxy.rs 187–218):
`[scheme://][user:pass@]host:port`; credentials only when both username
and password are present. -/
def proxyAsStr (p : Proxy) (includeProtocol : Bool) : String :=
  (if includeProtocol then protoStrLower p.protocol ++ "://" else "")
    ++ (match p.username, p.password with
        | some u, some pw => u ++ ":" ++ pw ++ "@"
        | _, _ => "")
    ++ p.host ++ ":" ++ toString p.port

/-- `create_proxy_list_str` (src/output.rs 250–267): keep a proxy when
not filtering, or when its `exit_ip` is present and differs from `host`
(`is_some_and(|ip| *ip != proxy.host)`); render and join with
newlines. -/
def create_proxy_list_str (proxies : List Proxy)
    (anonymousOnly includeProtocol : Bool) : String :=
  String.intercalate "\n"
    ((proxies.filter fun p =>
        !anonymousOnly
          || (match p.exit_ip with
              | some ip => ip != p.host
              | none => false)).map
      fun p => proxyAsStr p includeProtocol)

/-- The spec's notion of an anonymous proxy: the exit IP is present and
differs (as a string) from the host. -/
def isAnonymous (p : Proxy) : Bool :=
  match p.exit_ip with
  | some ip => decide (ip ≠ p.host)
  | none => false

/-- C8.  The anonymous-only text output contains exactly the proxies
whose `exit_ip` is present and differs (as a string) from their `host`;
every other proxy — in particular any whose `exit_ip` is absent — is
excluded. -/
theorem C8_anonymous_filter (proxies : List Proxy) (includeProtocol : Bool) :
    create_proxy_list_str proxies true includeProtocol
        = String.intercalate "\n" ((proxies.filter isAnonymous).map
            fun p => proxyAsStr p includeProtocol)
      ∧ (∀ p : Proxy, p ∈ proxies.filter isAnonymous ↔
          p ∈ proxies ∧ ∃ ip, p.exit_ip = some ip ∧ ip ≠ p.host)
      ∧ (∀ p ∈ proxies, p.exit_ip = none → p ∉ proxies.filter isAnonymous) := by
  have hpt : ∀ p : Proxy,
      (!true
        || (match p.exit_ip with
            | some ip => ip != p.host
            | none => false)) = isAnonymous p := by
    intro p
    rcases he : p.exit_ip with _ | ip <;>
      simp [isAnonymous, he, bne, Bool.beq_eq_decide_eq]
  refine ⟨?_, ?_, ?_⟩
  · unfold create_proxy_list_str
    rw [List.filter_congr fun p _ => hpt p]
  · intro p
    rw [List.mem_filter]
    constructor
    · rintro ⟨hmem, hanon⟩
      refine ⟨hmem, ?_⟩
      unfold isAnonymous at hanon
      rcases he : p.exit_ip with _ | ip
      · rw [he] at hanon
        cases hanon
      · rw [he] at hanon
        exact ⟨ip, rfl, by simpa using hanon⟩
    · rintro ⟨hmem, ip, hip, hne⟩
      refine ⟨hmem, ?_⟩
      unfold isAnonymous
      rw [hip]
      simpa using hne
  · intro p hmem hnone habs
    rw [List.mem_filter] at habs
    unfold isAnonymous at habs
    rw [hnone] at habs
    exact absurd habs.2 (by simp)

/-- Witness for `C8_anonymous_filter`: in a three-proxy list, exactly the
proxy whose exit IP differs from its host survives the filter. -/
theorem C8_anonymous_filter_witness :
    ((⟨.Http, "1.2.3.4", 80, none, none, none, some "9.9.9.9"⟩ : Proxy)
        ∈ List.filter isAnonymous
            [⟨.Http, "1.2.3.4", 80, none, none, none, some "9.9.9.9"⟩,
             ⟨.Http, "5.6.7.8", 80, none, none, none, some "5.6.7.8"⟩,
             ⟨.Http, "8.8.8.8", 80, none, none, none, none⟩])
      ∧ ((⟨.Http, "8.8.8.8", 80, none, none, none, none⟩ : Proxy)
          ∉ List.filter isAnonymous
              [⟨.Http, "1.2.3.4", 80, none, none, none, some "9.9.9.9"⟩,
               ⟨.Http, "5.6.7.8", 80, none, none, none, some "5.6.7.8"⟩,
               ⟨.Http, "8.8.8.8", 80, none, none, none, none⟩]) :=
  ⟨((C8_anonymous_filter
        [⟨.Http, "1.2.3.4", 80, none, none, none, some "9.9.9.9"⟩,
         ⟨.Http, "5.6.7.8", 80, none, none, none, some "5.6.7.8"⟩,
         ⟨.Http, "8.8.8.8", 80, none, none, none, none⟩] true).2.1
      ⟨.Http, "1.2.3.4", 80, none, none, none, some "9.9.9.9"⟩).mpr
    ⟨by decide, "9.9.9.9", rfl, by decide⟩,
   (C8_anonymous_filter
        [⟨.Http, "1.2.3.4", 80, none, none, none, some "9.9.9.9"⟩,
         ⟨.Http, "5.6.7.8", 80, none, none, none, some "5.6.7.8"⟩,
         ⟨.Http, "8.8.8.8", 80, none, none, none, none⟩] true).2.2
    ⟨.Http, "8.8.8.8", 80, none, none, none, none⟩ (by decide) rfl⟩

/-! ## IP-DB cache (src/ipdb.rs)

The cache state is the pair of the DB file and its sibling ETag file
(`none` = the file does not exist).  One call of `DbType::download` sees
one network response, given as an oracle: a transport error, or a status
with a chunk stream (a `none` chunk models a mid-stream read error) and an
optional `ETag` header.  Filesystem writes themselves are taken to
succeed; file contents are byte lists.  "History" `hist` is the set of
(ETag, complete body) pairs the server has ever served on a 200. -/

/-- The two cache files of one database. -/
structure CacheState where
  dbFile : Option (List Nat)
  etagFile : Option String
deriving DecidableEq

/-- One response to the conditional `GET` of `DbType::download`. -/
inductive DbResponse where
  | transportErr
  | response (status : Nat) (chunks : List (Option (List Nat)))
      (etagHeader : Option String)
deriving DecidableEq

/-- `save_db` (src/ipdb.rs 49–85): `File::create` truncates, then chunks
are appended until the stream ends or errors.  Returns the bytes on disk
and whether streaming completed. -/
def saveDbBytes (acc : List Nat) : List (Option (List Nat)) → List Nat × Bool
  | [] => (acc, true)
  | some c :: rest => saveDbBytes (acc ++ c) rest
  | none :: _ => (acc, false)

/-- `read_etag` gated by the `metadata` check (src/ipdb.rs 123–132): the
`If-None-Match` value sent, if any. -/
def requestEtag (s : CacheState) : Option String :=
  if s.dbFile.isSome then s.etagFile else none

/-- `DbType::download` (src/ipdb.rs 118–205) as a transition on the cache
state: `error_for_status` on 4xx/5xx; `304` keeps everything; other
non-`200` statuses error without touching the files; on `200` the body is
streamed into the DB file (truncating first), and only on completion is
the ETag sibling overwritten with the response header or removed when the
header is absent. -/
def download (s : CacheState) (r : DbResponse) :
    Except Unit Unit × CacheState :=
  match r with
  | .transportErr => (.error (), s)
  | .response status chunks etagHeader =>
    if 400 ≤ status ∧ status ≤ 599 then (.error (), s)
    else if status = 304 then (.ok (), s)
    else if status ≠ 200 then (.error (), s)
    else
      let streamed := saveDbBytes [] chunks
      let s1 : CacheState := { s with dbFile := some streamed.1 }
      if streamed.2 then
        match etagHeader with
        | some e => (.ok (), { s1 with etagFile := some e })
        | none => (.ok (), { s1 with etagFile := none })
      else (.error (), s1)

/-- The complete-200 pairs served by a response. -/
def servedPairs : DbResponse → List (String × List Nat)
  | .response 200 chunks (some e) =>
    if (saveDbBytes [] chunks).2 then [(e, (saveDbBytes [] chunks).1)] else []
  | _ => []

/-- The cache invariant of the spec: an existing ETag file implies the DB
file exists and holds the complete body of a prior 200 whose `ETag`
header is the stored value. -/
def CacheInv (hist : List (String × List Nat)) (s : CacheState) : Prop :=
  ∀ e, s.etagFile = some e → ∃ b, s.dbFile = some b ∧ (e, b) ∈ hist

lemma cacheInv_mono {hist hist' : List (String × List Nat)} {s : CacheState}
    (h : CacheInv hist s) : CacheInv (hist ++ hist') s := by
  intro e he
  obtain ⟨b, hb, hmem⟩ := h e he
  exact ⟨b, hb, List.mem_append.mpr (Or.inl hmem)⟩

/-- C9 (amended).  The IP-DB cache invariant — if the sibling `.etag`
file exists then the DB file exists and holds the body of a prior `200`
whose `ETag` header equals the stored value — is preserved by every
`DbType::download` outcome that returns success, and by every error that
occurs before the `200` body is streamed (the state is then untouched);
on a completed `200` the response ETag is stored, or the stale sibling
removed if the response carried none; on a `304` neither file is
modified.  A mid-stream read failure during a `200`, however, leaves the
partially streamed DB file next to the stale ETag (see the
counterexample). -/
theorem C9_ipdb_cache_invariant (hist : List (String × List Nat))
    (s : CacheState) (r : DbResponse) (hinv : CacheInv hist s) :
    ((download s r).1 = .ok () →
        CacheInv (hist ++ servedPairs r) (download s r).2)
      ∧ (∀ chunks etagHeader, r = .response 304 chunks etagHeader →
          (download s r).2 = s ∧ (download s r).1 = .ok ())
      ∧ (∀ chunks etagHeader, r = .response 200 chunks etagHeader →
          (saveDbBytes [] chunks).2 = true →
          (download s r).2
            = ⟨some (saveDbBytes [] chunks).1, etagHeader⟩)
      ∧ (r = .transportErr → (download s r).2 = s)
      ∧ (∀ status chunks etagHeader,
          r = .response status chunks etagHeader → status ≠ 200 →
          (download s r).2 = s) := by
  refine ⟨?_, ?_, ?_, ?_, ?_⟩
  · intro hok
    rcases r with _ | ⟨status, chunks, etagHeader⟩
    · cases hok
    · unfold download at hok ⊢
      dsimp only at hok ⊢
      by_cases h45 : 400 ≤ status ∧ status ≤ 599
      · rw [if_pos h45] at hok
        cases hok
      · rw [if_neg h45] at hok ⊢
        by_cases h304 : status = 304
        · rw [if_pos h304] at hok ⊢
          subst h304
          exact cacheInv_mono hinv
        · rw [if_neg h304] at hok ⊢
          by_cases h200 : status ≠ 200
          · rw [if_pos h200] at hok
            cases hok
          · push_neg at h200
            subst h200
            rw [if_neg (by omega)] at hok ⊢
            rcases hstream : (saveDbBytes [] chunks).2 with _ | _
            · rw [if_neg (by simp [hstream])] at hok
              cases hok
            · rw [if_pos hstream] at hok
              rw [if_pos rfl]
              rcases etagHeader with _ | e
              · intro e' he'
                simp at he'
              · intro e' he'
                simp only [Option.some.injEq] at he'
                subst he'
                refine ⟨(saveDbBytes [] chunks).1, rfl, ?_⟩
                refine List.mem_append.mpr (Or.inr ?_)
                simp [servedPairs, hstream]
  · rintro chunks etagHeader rfl
    unfold download
    dsimp only
    rw [if_neg (by omega), if_pos rfl]
    exact ⟨rfl, rfl⟩
  · rintro chunks etagHeader rfl hstream
    unfold download
    dsimp only
    rw [if_neg (by omega), if_neg (by omega), if_neg (by omega)]
    rw [hstream]
    simp only [if_true]
    rcases etagHeader with _ | e <;> rfl
  · rintro rfl
    rfl
  · rintro status chunks etagHeader rfl hne
    unfold download
    dsimp only
    by_cases h45 : 400 ≤ status ∧ status ≤ 599
    · rw [if_pos h45]
    · rw [if_neg h45]
      by_cases h304 : status = 304
      · rw [if_pos h304]
      · rw [if_neg h304, if_pos hne]

/-- Witness for `C9_ipdb_cache_invariant`: starting from a cached body
`[1]` with ETag `"E1"`, a complete `200` carrying body `[2]` and ETag
`"E2"` moves the cache to `⟨[2], "E2"⟩` and the invariant still holds. -/
theorem C9_ipdb_cache_invariant_witness :
    (download ⟨some [1], some "E1"⟩
          (.response 200 [some [2]] (some "E2"))).2
        = ⟨some [2], some "E2"⟩
      ∧ CacheInv [("E1", [1]), ("E2", [2])]
          (download ⟨some [1], some "E1"⟩
            (.response 200 [some [2]] (some "E2"))).2 := by
  have hinv : CacheInv [("E1", [1])] ⟨some [1], some "E1"⟩ := by
    intro e he
    simp only [Option.some.injEq] at he
    subst he
    exact ⟨[1], rfl, by decide⟩
  have h := C9_ipdb_cache_invariant [("E1", [1])] ⟨some [1], some "E1"⟩
    (.response 200 [some [2]] (some "E2")) hinv
  exact ⟨h.2.2.1 [some [2]] (some "E2") rfl rfl,
    h.1 rfl⟩

/-- C9 (counterexample).  The claim asserts the invariant "across every
outcome … or error mid-way", but a read error in the middle of a `200`
body stream truncates and partially rewrites the DB file *before* the
ETag file is touched, so the stale ETag survives next to a body that was
never served with it: the invariant is broken by that outcome. -/
theorem C9_counterexample :
    CacheInv [("E1", [1])] ⟨some [1], some "E1"⟩
      ∧ (download ⟨some [1], some "E1"⟩
            (.response 200 [some [2], none] (some "E2"))).2
          = ⟨some [2], some "E1"⟩
      ∧ (download ⟨some [1], some "E1"⟩
            (.response 200 [some [2], none] (some "E2"))).1 ≠ .ok ()
      ∧ ¬ CacheInv
          ([("E1", [1])]
            ++ servedPairs (.response 200 [some [2], none] (some "E2")))
          (download ⟨some [1], some "E1"⟩
            (.response 200 [some [2], none] (some "E2"))).2 := by
  refine ⟨?_, by rfl, fun h => Except.noConfusion h, ?_⟩
  · intro e he
    simp only [Option.some.injEq] at he
    subst he
    exact ⟨[1], rfl, by decide⟩
  · intro h
    obtain ⟨b, hb, hmem⟩ := h "E1" (by rfl)
    have hb' : b = [2] := by
      have : (download ⟨some [1], some "E1"⟩
          (.response 200 [some [2], none] (some "E2"))).2.dbFile = some [2] := rfl
      rw [this] at hb
      exact ((Option.some.injEq _ _).mp hb).symm
    subst hb'
    have : servedPairs (.response 200 [some [2], none] (some "E2")) = [] := rfl
    rw [this] at hmem
    simp at hmem
